import Mathlib

/-!
Verification of the ownership-container layer of `mnemos-alloc`
(`src/containers.rs`): `HeapBox`, `HeapArc` (with its `ArcInner` header and
header-offset recovery), `HeapArray` and `HeapFixedVec`.

The external allocator-node primitive (`Active<T>` / `ActiveArr<T>` from
`src/node.rs`, not part of these sources) is modelled abstractly from the
spec: a handle is an address, resolving it to the data address adds a
structural layout offset, and deactivation ("yeet") is recorded as an event.
Machine integers (`usize` in the reference counter) are modelled as `Nat`
with explicit reduction modulo `2 ^ 64`.
-/

/-- The modulus of `usize` arithmetic (`AtomicUsize::fetch_add` /
`fetch_sub` wrap around). -/
def USIZE : Nat := 2 ^ 64

/-- `usize` increment by one with wraparound: on the representable range
`[0, USIZE)` this is exactly `(n + 1) % USIZE`, written branchwise (see
`usizeAdd1_eq_mod`).  Models `AtomicUsize::fetch_add(1, ...)`'s stored
value. -/
def usizeAdd1 (n : Nat) : Nat :=
  if n + 1 = USIZE then 0 else n + 1

/-- `usize` decrement by one with wraparound: on the representable range
`[0, USIZE)` this is exactly `(n + (USIZE - 1)) % USIZE`, written
branchwise (see `usizeSub1_eq_mod`).  Models
`AtomicUsize::fetch_sub(1, ...)`'s stored value. -/
def usizeSub1 (n : Nat) : Nat :=
  if n = 0 then USIZE - 1 else n - 1

/-- Modelled from the spec: the external allocator node layout (`Active<T>`
in `src/node.rs` is not among this repository's sources).  `resolve`
(called `Active::data` in the code) turns an active handle into a stable
raw data address; the distance between the node address and its data field
is a structural offset `dataOff` depending only on the node layout. -/
structure ActiveLayout where
  dataOff : Int

namespace Active

/-- Modelled from the spec: `Active::<T>::data(handle)` resolves an active
handle to the raw address of the stored data. -/
def data (L : ActiveLayout) (handle : Int) : Int :=
  handle + L.dataOff

/-- Modelled from the spec: `Active::<T>::from_leaked_ptr(data_addr)`
recovers the node handle from the raw data address; it inverts `data`. -/
def from_leaked_ptr (L : ActiveLayout) (dataAddr : Int) : Int :=
  dataAddr - L.dataOff

end Active

/-! ## `ArcInner<T>` and header-offset recovery -/

/-- `ArcInner<T>` from `src/containers.rs`: the payload together with the
atomic reference counter, colocated in one allocated region. -/
structure ArcInner (T : Type) where
  data : T
  refcnt : Nat

namespace ArcInner

/-- `ArcInner::<T>::data_offset()`: build a same-layout dummy `ArcInner`
at some stack address `d`, and return the signed byte distance
`dummy_ptr.offset_from(data_ptr)` between the dummy's own address and the
address of its `data` field.  `off` is the structural offset of the `data`
field inside `ArcInner<T>` (identical for the `MaybeUninit<T>` dummy, which
has the same layout), so the field of the dummy sits at `d + off`. -/
def data_offset (off : Nat) (d : Int) : Int :=
  d - (d + (off : Int))

/-- `ArcInner::<T>::from_leaked_ptr(data)`: offset the payload address by
`data_offset` to recover the address of the enclosing `ArcInner` region.
`d` is the address of the dummy used by `data_offset`. -/
def from_leaked_ptr (off : Nat) (d : Int) (p : Int) : Int :=
  p + data_offset off d

end ArcInner

/-! ## `HeapArc<T>` -/

/-- The state of one shared allocation reachable from `HeapArc` handles:
the allocator-node layout, the structural offset of the `data` field inside
`ArcInner<T>`, the node address, and the `ArcInner` contents, together with
liveness flags for the payload and the handle. -/
structure ArcHeap (T : Type) where
  L : ActiveLayout
  off : Nat
  node : Int
  data : T
  refcnt : Nat
  payloadAlive : Bool
  handleActive : Bool

namespace HeapArc

variable {T : Type}

/-- `HeapArc::leak(self)`: resolve the node to the `ArcInner` address, take
the address of its `data` field, and forget `self` (no state change). -/
def leak (H : ArcHeap T) (selfPtr : Int) : Int :=
  Active.data H.L selfPtr + (H.off : Int)

/-- `HeapArc::from_leaked(ptr)`: recover the `ArcInner` address from the
payload address via `ArcInner::from_leaked_ptr`, then the node handle via
`Active::from_leaked_ptr`.  Does NOT touch the counter.  Returns the
(unchanged) heap and the `ptr` field of the reconstructed container.  `d`
is the address of the dummy used by the offset computation. -/
def from_leaked (H : ArcHeap T) (d : Int) (p : Int) : ArcHeap T × Int :=
  (H, Active.from_leaked_ptr H.L (ArcInner.from_leaked_ptr H.off d p))

/-- `HeapArc::clone_from_leaked(ptr)`: `let new = Self::from_leaked(ptr)`,
then `refcnt.fetch_add(1, SeqCst)`.  Returns the updated heap and the new
container's `ptr` field. -/
def clone_from_leaked (H : ArcHeap T) (d : Int) (p : Int) : ArcHeap T × Int :=
  let new := from_leaked H d p
  ({ new.1 with refcnt := usizeAdd1 new.1.refcnt }, new.2)

/-- `HeapArc::increment_count(ptr)`: recover the `ArcInner` address and
`fetch_add(1, SeqCst)` on the counter; no container is created. -/
def increment_count (H : ArcHeap T) : ArcHeap T :=
  { H with refcnt := usizeAdd1 H.refcnt }

/-- `<HeapArc as Deref>::deref`: read the `data` field of the `ArcInner`
region. -/
def deref (H : ArcHeap T) : T :=
  H.data

/-- `<HeapArc as Clone>::clone`: `refcnt.fetch_add(1, SeqCst)`, then return
a new `HeapArc` carrying the same `ptr`.  Result: updated heap and the new
container's `ptr` field. -/
def clone (H : ArcHeap T) (selfPtr : Int) : ArcHeap T × Int :=
  ({ H with refcnt := usizeAdd1 H.refcnt }, selfPtr)

/-- `<HeapArc as Drop>::drop`: `old = refcnt.fetch_sub(1, SeqCst)`;
`debug_assert_ne!(old, 0)`; if `old == 1`, `drop_in_place` the `ArcInner`
(payload dropped) and `yeet` the node (handle deactivated).  Returns the
updated heap and whether the debug assertion held. -/
def dropArc (H : ArcHeap T) : ArcHeap T × Bool :=
  let old := H.refcnt
  let H1 : ArcHeap T := { H with refcnt := usizeSub1 H.refcnt }
  if old = 1 then
    ({ H1 with payloadAlive := false, handleActive := false }, decide (old ≠ 0))
  else
    (H1, decide (old ≠ 0))

end HeapArc

/-! ## `HeapBox<T>` -/

/-- The state of one `HeapBox` allocation: node layout, node address, the
stored value, and liveness flags. -/
structure BoxHeap (T : Type) where
  L : ActiveLayout
  node : Int
  value : T
  payloadAlive : Bool
  handleActive : Bool

namespace HeapBox

variable {T : Type}

/-- `HeapBox::leak(self)`: resolve the node to the data address and forget
`self` (no destructor, no state change). -/
def leak (H : BoxHeap T) (selfPtr : Int) : Int :=
  Active.data H.L selfPtr

/-- `HeapBox::from_leaked(ptr)`: reconstruct the container by recovering
the node handle via `Active::from_leaked_ptr`; returns the new container's
`ptr` field, heap unchanged. -/
def from_leaked (H : BoxHeap T) (p : Int) : Int :=
  Active.from_leaked_ptr H.L p

/-- `<HeapBox as Deref>::deref`: read the stored value. -/
def deref (H : BoxHeap T) : T :=
  H.value

end HeapBox

/-! ## `HeapArray<T>` -/

/-- The state of one `HeapArray` allocation: `ActiveArr::data` resolves the
handle to the base address of a contiguous run together with the element
count remembered by the node; we carry the elements as a list whose length
is that count. -/
structure ArrHeap (T : Type) where
  elems : List T

namespace HeapArray

variable {T : Type}

/-- One `drop_in_place(start.add(i))` event during teardown: the slot index
and the value dropped there. -/
def dropEvent (H : ArrHeap T) (i : Nat) : Nat × Option T :=
  (i, H.elems[i]?)

/-- `<HeapArray as Drop>::drop`: `let (start, count) = ActiveArr::data(ptr)`;
for `i in 0..count`, `drop_in_place(start.add(i))`; then
`ActiveArr::yeet(ptr)`.  Returns the ordered list of drop events and
whether the handle was deactivated. -/
def dropArray (H : ArrHeap T) : List (Nat × Option T) × Bool :=
  ((List.range H.elems.length).map (dropEvent H), true)

end HeapArray

/-! ## `HeapFixedVec<T>` -/

/-- The state of one `HeapFixedVec` allocation: the node stores
`capacity`-many `MaybeUninit<T>` slots (`none` models an uninitialized
slot) and the container locally tracks the logical length `len`.
`ActiveArr::data` resolves the handle to the base address and the slot
count, so the capacity is `buf.length`. -/
structure FixedVec (T : Type) where
  buf : List (Option T)
  len : Nat

namespace HeapFixedVec

variable {T : Type}

/-- `HeapFixedVec::push(item)`: `let (nn_ptr, count) = ActiveArr::data(ptr)`;
if `count == self.len`, return `Err(item)`; otherwise write `item` into
slot `self.len` (without reading or dropping its previous contents) and
increment `self.len`.  Returns the new state and the `Result`. -/
def push (s : FixedVec T) (item : T) : FixedVec T × Except T Unit :=
  if s.buf.length = s.len then
    (s, .error item)
  else
    ({ buf := s.buf.set s.len (some item), len := s.len + 1 }, .ok ())

/-- `HeapFixedVec::is_full()`: `count == self.len`. -/
def is_full (s : FixedVec T) : Bool :=
  s.buf.length = s.len

/-- `<HeapFixedVec as Deref>::deref`: the slice of the first `len` slots. -/
def deref (s : FixedVec T) : List (Option T) :=
  s.buf.take s.len

/-- One `drop_in_place(start.add(i))` event during teardown: the slot index
and the slot contents read there (`none` would be an uninitialized read). -/
def dropEvent (s : FixedVec T) (i : Nat) : Nat × Option T :=
  (i, s.buf.getD i none)

/-- `<HeapFixedVec as Drop>::drop`: for `i in 0..self.len`,
`drop_in_place(start.add(i))`; then `ActiveArr::yeet(ptr)`.  Returns the
ordered list of drop events and whether the handle was deactivated. -/
def dropVec (s : FixedVec T) : List (Nat × Option T) × Bool :=
  ((List.range s.len).map (dropEvent s), true)

end HeapFixedVec

/-! ## Interleaving model of the `HeapArc` refcount protocol

Every counter operation in the source is a single sequentially-consistent
atomic read-modify-write, so any multi-threaded execution of `clone` and
`drop` on handles of one shared allocation linearizes to a sequence of
these operations.  A trace is valid when every operation is performed by a
thread holding a live handle (`live > 0` at that point). -/

/-- An operation of the shared-ownership protocol: `Clone::clone` on some
live handle, or `Drop::drop` of some live handle. -/
inductive ArcOp where
  | clone : ArcOp
  | drop : ArcOp
deriving DecidableEq, Repr

/-- Protocol state: number of live `HeapArc` handles of the allocation, the
shared counter, and how many times the payload destructor has run. -/
structure ArcTraceState where
  live : Nat
  refcnt : Nat
  payloadDrops : Nat
deriving Repr

/-- One linearized protocol step: `clone` performs
`refcnt.fetch_add(1, SeqCst)` and creates a handle; `drop` performs
`old = refcnt.fetch_sub(1, SeqCst)`, destroys a handle, and runs the
payload destructor exactly when `old == 1`. -/
def stepOp (s : ArcTraceState) : ArcOp → ArcTraceState
  | .clone =>
      { live := s.live + 1
        refcnt := usizeAdd1 s.refcnt
        payloadDrops := s.payloadDrops }
  | .drop =>
      { live := s.live - 1
        refcnt := usizeSub1 s.refcnt
        payloadDrops := if s.refcnt = 1 then s.payloadDrops + 1 else s.payloadDrops }

/-- Run a linearized trace of protocol operations. -/
def runOps (s : ArcTraceState) (ops : List ArcOp) : ArcTraceState :=
  ops.foldl stepOp s

/-- A trace is valid from a state with `live` handles when each operation
is performed by a thread holding a live handle. -/
def validOps : Nat → List ArcOp → Prop
  | _, [] => True
  | live, op :: rest =>
      0 < live ∧
        validOps (match op with | .clone => live + 1 | .drop => live - 1) rest

instance instDecidableValidOps : ∀ live ops, Decidable (validOps live ops)
  | _, [] => .isTrue trivial
  | live, op :: rest =>
      have : Decidable (validOps (match op with | .clone => live + 1 | .drop => live - 1) rest) :=
        instDecidableValidOps _ rest
      instDecidableAnd

/-- The state right after construction: one handle, counter 1, payload not
yet dropped. -/
def arcInit : ArcTraceState :=
  { live := 1, refcnt := 1, payloadDrops := 0 }

/-! ## Example states used to witness the theorems -/

/-- A live shared allocation with counter 1. -/
def exArc1 : ArcHeap Nat :=
  { L := ⟨8⟩, off := 8, node := 100, data := 42, refcnt := 1,
    payloadAlive := true, handleActive := true }

/-- A live shared allocation with counter 2. -/
def exArc2 : ArcHeap Nat :=
  { L := ⟨8⟩, off := 8, node := 100, data := 42, refcnt := 2,
    payloadAlive := true, handleActive := true }

/-- A live `HeapBox` allocation. -/
def exBox : BoxHeap Nat :=
  { L := ⟨16⟩, node := 200, value := 7, payloadAlive := true,
    handleActive := true }

/-- A fixed vector with capacity 3 holding 2 elements. -/
def exVec2 : FixedVec Nat :=
  { buf := [some 10, some 20, none], len := 2 }

/-- A full fixed vector with capacity 3 holding 3 elements. -/
def exVec3 : FixedVec Nat :=
  { buf := [some 10, some 20, some 30], len := 3 }

/-! ## Helper lemmas -/

theorem map_getElem?_range {T : Type} (l : List T) :
    (List.range l.length).map (fun i => l[i]?) = l.map some := by
  induction l with
  | nil => rfl
  | cons a t ih =>
      rw [List.length_cons, List.range_succ_eq_map, List.map_cons, List.map_map]
      simp only [Function.comp_def, List.getElem?_cons_zero,
        List.getElem?_cons_succ, List.map_cons]
      rw [ih]

theorem USIZE_pos : 0 < USIZE := by decide

theorem usizeAdd1_eq_mod (n : Nat) (h : n < USIZE) :
    usizeAdd1 n = (n + 1) % USIZE := by
  unfold usizeAdd1
  by_cases hc : n + 1 = USIZE
  · rw [if_pos hc, hc, Nat.mod_self]
  · rw [if_neg hc, Nat.mod_eq_of_lt (by omega)]

theorem usizeSub1_eq_mod (n : Nat) (h : n < USIZE) :
    usizeSub1 n = (n + (USIZE - 1)) % USIZE := by
  have hpos : 0 < USIZE := USIZE_pos
  unfold usizeSub1
  by_cases h0 : n = 0
  · rw [if_pos h0, h0, Nat.zero_add, Nat.mod_eq_of_lt (by omega)]
  · rw [if_neg h0]
    have hrw : n + (USIZE - 1) = (n - 1) + USIZE := by omega
    rw [hrw, Nat.add_mod_right, Nat.mod_eq_of_lt (by omega)]

theorem usizeSub1_one : usizeSub1 1 = 0 := by decide

theorem validOps_append_left (pre suf : List ArcOp) :
    ∀ live : Nat, validOps live (pre ++ suf) → validOps live pre := by
  induction pre with
  | nil => intro live _; trivial
  | cons op rest ih =>
      intro live h
      exact ⟨h.1, ih _ h.2⟩

theorem runOps_refcnt_payload (ops : List ArcOp) :
    ∀ s : ArcTraceState, validOps s.live ops → s.refcnt = s.live →
      0 < s.live → s.live + ops.length < USIZE →
      (runOps s ops).refcnt = (runOps s ops).live ∧
      (runOps s ops).payloadDrops
        = s.payloadDrops + (if (runOps s ops).live = 0 then 1 else 0) := by
  induction ops with
  | nil =>
      intro s _ hr hpos _
      refine ⟨hr, ?_⟩
      show s.payloadDrops = s.payloadDrops + (if s.live = 0 then 1 else 0)
      rw [if_neg (by omega)]
      omega
  | cons op rest ih =>
      intro s hv hr hpos hlen
      obtain ⟨hpos0, hv'⟩ := hv
      have hstep : runOps s (op :: rest) = runOps (stepOp s op) rest := rfl
      simp only [List.length_cons] at hlen
      cases op with
      | clone =>
          have hlt : s.live + 1 < USIZE := by omega
          have hadd : usizeAdd1 s.live = s.live + 1 := by
            unfold usizeAdd1
            rw [if_neg (by omega)]
          have hs1 : stepOp s ArcOp.clone
              = { live := s.live + 1, refcnt := s.live + 1,
                  payloadDrops := s.payloadDrops } := by
            simp only [stepOp, hr, hadd]
          rw [hstep, hs1]
          exact ih _ hv' rfl (Nat.succ_pos _)
            (show s.live + 1 + rest.length < USIZE by omega)
      | drop =>
          rcases Nat.lt_or_ge s.live 2 with h2 | h2
          · have h1 : s.live = 1 := by omega
            have hs1 : stepOp s ArcOp.drop
                = { live := 0, refcnt := 0, payloadDrops := s.payloadDrops + 1 } := by
              simp only [stepOp, hr, h1, usizeSub1_one]
              simp
            cases rest with
            | nil =>
                rw [hstep, hs1]
                exact ⟨rfl, by simp [runOps]⟩
            | cons op2 rest2 =>
                exfalso
                have hbad : (0 : Nat) < s.live - 1 := hv'.1
                omega
          · have hsub : usizeSub1 s.live = s.live - 1 := by
              unfold usizeSub1
              rw [if_neg (by omega)]
            have hs1 : stepOp s ArcOp.drop
                = { live := s.live - 1, refcnt := s.live - 1,
                    payloadDrops := s.payloadDrops } := by
              simp only [stepOp, hr, hsub]
              rw [if_neg (by omega)]
            rw [hstep, hs1]
            exact ih _ hv' rfl (show 0 < s.live - 1 by omega)
              (show s.live - 1 + rest.length < USIZE by omega)

/-! ## C1 -/

theorem dropArc_eq_of_ne_one {T : Type} (H : ArcHeap T) (h1 : ¬ H.refcnt = 1) :
    HeapArc.dropArc H
      = ({ H with refcnt := usizeSub1 H.refcnt },
         decide (H.refcnt ≠ 0)) := by
  unfold HeapArc.dropArc
  simp only [if_neg h1]

theorem dropArc_eq_of_one {T : Type} (H : ArcHeap T) (h1 : H.refcnt = 1) :
    HeapArc.dropArc H
      = ({ H with refcnt := 0, payloadAlive := false, handleActive := false },
         true) := by
  unfold HeapArc.dropArc
  simp only [h1, if_pos rfl, ite_true, usizeSub1_one]
  simp

/-- C1: Dropping a `HeapArc` atomically decrements the shared counter
(with the `usize` wraparound at zero made explicit); exactly when that
decrement observed the counter transitioning from 1 to 0, the payload is
dropped and the handle is deactivated; otherwise nothing beyond the
decrement changes.  The debug assertion (`debug_assert_ne!(old, 0)`) fails
exactly when the counter was already zero. -/
theorem heapArc_dropArc_spec {T : Type} (H : ArcHeap T)
    (hAlive : H.payloadAlive = true) (hActive : H.handleActive = true) :
    (HeapArc.dropArc H).1.refcnt = usizeSub1 H.refcnt ∧
    (0 < H.refcnt → (HeapArc.dropArc H).1.refcnt = H.refcnt - 1) ∧
    ((HeapArc.dropArc H).1.payloadAlive = false ↔ H.refcnt = 1) ∧
    ((HeapArc.dropArc H).1.handleActive = false ↔ H.refcnt = 1) ∧
    (H.refcnt ≠ 1 →
      (HeapArc.dropArc H).1 = { H with refcnt := usizeSub1 H.refcnt }) ∧
    ((HeapArc.dropArc H).2 = false ↔ H.refcnt = 0) := by
  by_cases h1 : H.refcnt = 1
  · rw [dropArc_eq_of_one H h1]
    refine ⟨by rw [h1, usizeSub1_one], ?_, by simp [h1], by simp [h1], ?_,
      by simp [h1]⟩
    · intro _
      rw [h1]
    · intro hne
      exact absurd h1 hne
  · rw [dropArc_eq_of_ne_one H h1]
    refine ⟨by simp, ?_, by simp [hAlive, h1], by simp [hActive, h1],
      fun _ => rfl, by simp [h1]⟩
    intro hpos
    show usizeSub1 H.refcnt = H.refcnt - 1
    unfold usizeSub1
    rw [if_neg (by omega)]

/-- Witness for C1 at a concrete live allocation with counter 1. -/
theorem heapArc_dropArc_spec_witness :
    exArc1.payloadAlive = true ∧ exArc1.handleActive = true ∧
    ((HeapArc.dropArc exArc1).1.refcnt = usizeSub1 exArc1.refcnt ∧
     (0 < exArc1.refcnt → (HeapArc.dropArc exArc1).1.refcnt = exArc1.refcnt - 1) ∧
     ((HeapArc.dropArc exArc1).1.payloadAlive = false ↔ exArc1.refcnt = 1) ∧
     ((HeapArc.dropArc exArc1).1.handleActive = false ↔ exArc1.refcnt = 1) ∧
     (exArc1.refcnt ≠ 1 →
       (HeapArc.dropArc exArc1).1 = { exArc1 with refcnt := usizeSub1 exArc1.refcnt }) ∧
     ((HeapArc.dropArc exArc1).2 = false ↔ exArc1.refcnt = 0)) :=
  ⟨rfl, rfl, heapArc_dropArc_spec exArc1 rfl rfl⟩

/-! ## C2 -/

/-- C2: `ArcInner::from_leaked_ptr` applied to the address of the payload
field of a `SharedHeader` region (base address `b`, payload at `b + off`)
returns exactly `b`; the offset it applies is the signed byte distance
between the dummy's address and its payload field's address, and it does
not depend on the dummy's address (only on the structural offset `off`
determined by the layout of `T`). -/
theorem arcInner_from_leaked_ptr_spec (off : Nat) (d d' b : Int) :
    ArcInner.from_leaked_ptr off d (b + (off : Int)) = b ∧
    ArcInner.data_offset off d = d - (d + (off : Int)) ∧
    ArcInner.data_offset off d = ArcInner.data_offset off d' := by
  refine ⟨?_, rfl, ?_⟩ <;>
    simp [ArcInner.from_leaked_ptr, ArcInner.data_offset]

/-! ## C4 -/

/-- C4: `HeapFixedVec::push` on a full vector (`length == capacity`)
returns the rejected value unchanged and makes no modification at all: the
state (buffer and length) is returned exactly as it was. -/
theorem heapFixedVec_push_full_spec {T : Type} (s : FixedVec T) (item : T)
    (hfull : s.buf.length = s.len) :
    HeapFixedVec.push s item = (s, Except.error item) := by
  unfold HeapFixedVec.push
  rw [if_pos hfull]

/-- Witness for C4 on a concrete full vector of capacity 3. -/
theorem heapFixedVec_push_full_spec_witness :
    exVec3.buf.length = exVec3.len ∧
    HeapFixedVec.push exVec3 99 = (exVec3, Except.error 99) :=
  ⟨rfl, heapFixedVec_push_full_spec exVec3 99 rfl⟩

/-! ## C5 -/

/-- C5: `HeapFixedVec::push` on a non-full vector writes the value into
slot `len`, increments the length by one, and returns `Ok(())`; and it
never reads the uninitialized slot being written: the result is identical
whatever garbage `g` that slot previously held (and no drop of the slot is
performed — teardown events exist only in `dropVec`). -/
theorem heapFixedVec_push_spec {T : Type} (s : FixedVec T) (item : T)
    (g : Option T) (hlt : s.len < s.buf.length) :
    (HeapFixedVec.push s item).1.buf[s.len]? = some (some item) ∧
    (HeapFixedVec.push s item).1.len = s.len + 1 ∧
    (HeapFixedVec.push s item).2 = Except.ok () ∧
    HeapFixedVec.push { buf := s.buf.set s.len g, len := s.len } item
      = HeapFixedVec.push s item := by
  have hne : ¬ s.buf.length = s.len := by omega
  have hne' : ¬ (s.buf.set s.len g).length = s.len := by
    rw [List.length_set]; omega
  unfold HeapFixedVec.push
  simp only [if_neg hne, if_neg hne']
  refine ⟨?_, ?_, ?_, ?_⟩
  · exact List.getElem?_set_eq_of_lt (some item) hlt
  · trivial
  · trivial
  · rw [List.set_set]

/-- Witness for C5 on a concrete capacity-3 vector holding 2 elements. -/
theorem heapFixedVec_push_spec_witness :
    exVec2.len < exVec2.buf.length ∧
    ((HeapFixedVec.push exVec2 30).1.buf[exVec2.len]? = some (some 30) ∧
     (HeapFixedVec.push exVec2 30).1.len = exVec2.len + 1 ∧
     (HeapFixedVec.push exVec2 30).2 = Except.ok () ∧
     HeapFixedVec.push { buf := exVec2.buf.set exVec2.len (some 77), len := exVec2.len } 30
       = HeapFixedVec.push exVec2 30) :=
  ⟨by decide, heapFixedVec_push_spec exVec2 30 (some 77) (by decide)⟩

/-! ## C3 -/

/-- C3: `leak()` followed by the matching adopt operation reconstructs a
container with the original handle, and its dereferenced value is identical
to the original; for `HeapArc`, `from_leaked` after `leak` leaves the
shared counter (and the whole heap) unchanged, while `clone_from_leaked`
after `leak` yields a counter exactly one larger than `from_leaked`
does. -/
theorem leak_adopt_roundtrip {T U : Type} (B : BoxHeap U) (H : ArcHeap T)
    (boxPtr arcPtr d : Int) (hwrap : H.refcnt + 1 < USIZE) :
    (HeapBox.from_leaked B (HeapBox.leak B boxPtr) = boxPtr ∧
      HeapBox.deref B = B.value) ∧
    ((HeapArc.from_leaked H d (HeapArc.leak H arcPtr)).2 = arcPtr ∧
      (HeapArc.from_leaked H d (HeapArc.leak H arcPtr)).1 = H ∧
      HeapArc.deref (HeapArc.from_leaked H d (HeapArc.leak H arcPtr)).1
        = HeapArc.deref H) ∧
    ((HeapArc.clone_from_leaked H d (HeapArc.leak H arcPtr)).2 = arcPtr ∧
      (HeapArc.clone_from_leaked H d (HeapArc.leak H arcPtr)).1.refcnt
        = (HeapArc.from_leaked H d (HeapArc.leak H arcPtr)).1.refcnt + 1 ∧
      HeapArc.deref (HeapArc.clone_from_leaked H d (HeapArc.leak H arcPtr)).1
        = HeapArc.deref H) := by
  have hround :
      Active.from_leaked_ptr H.L
        (ArcInner.from_leaked_ptr H.off d (HeapArc.leak H arcPtr)) = arcPtr := by
    simp only [HeapArc.leak, Active.from_leaked_ptr, Active.data,
      ArcInner.from_leaked_ptr, ArcInner.data_offset]
    ring
  have hadd : usizeAdd1 H.refcnt = H.refcnt + 1 := by
    unfold usizeAdd1
    rw [if_neg (by omega)]
  refine ⟨⟨?_, rfl⟩, ⟨?_, rfl, rfl⟩, ⟨?_, ?_, rfl⟩⟩
  · simp only [HeapBox.from_leaked, HeapBox.leak, Active.from_leaked_ptr,
      Active.data]
    ring
  · exact hround
  · exact hround
  · show usizeAdd1 H.refcnt = H.refcnt + 1
    exact hadd

/-- Witness for C3 at concrete box and shared allocations. -/
theorem leak_adopt_roundtrip_witness :
    exArc1.refcnt + 1 < USIZE ∧
    ((HeapBox.from_leaked exBox (HeapBox.leak exBox 200) = 200 ∧
      HeapBox.deref exBox = exBox.value) ∧
     ((HeapArc.from_leaked exArc1 500 (HeapArc.leak exArc1 100)).2 = 100 ∧
      (HeapArc.from_leaked exArc1 500 (HeapArc.leak exArc1 100)).1 = exArc1 ∧
      HeapArc.deref (HeapArc.from_leaked exArc1 500 (HeapArc.leak exArc1 100)).1
        = HeapArc.deref exArc1) ∧
     ((HeapArc.clone_from_leaked exArc1 500 (HeapArc.leak exArc1 100)).2 = 100 ∧
      (HeapArc.clone_from_leaked exArc1 500 (HeapArc.leak exArc1 100)).1.refcnt
        = (HeapArc.from_leaked exArc1 500 (HeapArc.leak exArc1 100)).1.refcnt + 1 ∧
      HeapArc.deref (HeapArc.clone_from_leaked exArc1 500 (HeapArc.leak exArc1 100)).1
        = HeapArc.deref exArc1)) :=
  ⟨by decide, leak_adopt_roundtrip exBox exArc1 200 100 500 (by decide)⟩

/-! ## C6 -/

theorem map_getD_range {T : Type} (l : List (Option T)) :
    ∀ n, n ≤ l.length →
      (List.range n).map (fun i => (l[i]?).getD none) = l.take n := by
  intro n
  induction n with
  | zero => intro _; simp
  | succ n ih =>
      intro h
      have hn : n < l.length := by omega
      rw [List.range_succ, List.map_append, ih (by omega), List.take_succ]
      simp [List.getElem?_eq_getElem hn]

/-- C6: The `HeapFixedVec` destructor performs exactly `len` drop events,
at slot indices `0, ..., len - 1` in order (each exactly once, and never a
slot at index `len` or beyond): the dropped contents are exactly the first
`len` slots of the buffer, and afterwards the handle is deactivated.  In
particular a capacity-3 vector holding 3 elements runs exactly 3
destructors. -/
theorem heapFixedVec_drop_spec {T : Type} (s : FixedVec T)
    (hlen : s.len ≤ s.buf.length) :
    (HeapFixedVec.dropVec s).1.length = s.len ∧
    (HeapFixedVec.dropVec s).1.map Prod.fst = List.range s.len ∧
    ((HeapFixedVec.dropVec s).1.map Prod.fst).Nodup ∧
    (HeapFixedVec.dropVec s).1.map Prod.snd = s.buf.take s.len ∧
    (HeapFixedVec.dropVec s).2 = true := by
  unfold HeapFixedVec.dropVec HeapFixedVec.dropEvent
  refine ⟨by simp, ?_, ?_, ?_, rfl⟩
  · rw [List.map_map]
    simp [Function.comp_def]
  · rw [List.map_map]
    simp only [Function.comp_def]
    simpa using List.nodup_range _
  · rw [List.map_map]
    simp only [Function.comp_def, List.getD_eq_getElem?_getD]
    exact map_getD_range s.buf s.len hlen

/-- Witness for C6 on the full capacity-3 vector: exactly 3 drop events. -/
theorem heapFixedVec_drop_spec_witness :
    exVec3.len ≤ exVec3.buf.length ∧
    ((HeapFixedVec.dropVec exVec3).1.length = exVec3.len ∧
     (HeapFixedVec.dropVec exVec3).1.map Prod.fst = List.range exVec3.len ∧
     ((HeapFixedVec.dropVec exVec3).1.map Prod.fst).Nodup ∧
     (HeapFixedVec.dropVec exVec3).1.map Prod.snd = exVec3.buf.take exVec3.len ∧
     (HeapFixedVec.dropVec exVec3).2 = true) :=
  ⟨by decide, heapFixedVec_drop_spec exVec3 (by decide)⟩

/-! ## C7 -/

/-- C7: `clone` on a `HeapArc` increments the shared counter by exactly one
(below the `usize` wrap), returns a container carrying the same `ptr`, and
changes nothing else of the allocation; being a total function of the
state, it never fails. -/
theorem heapArc_clone_spec {T : Type} (H : ArcHeap T) (selfPtr : Int)
    (hwrap : H.refcnt + 1 < USIZE) :
    (HeapArc.clone H selfPtr).1.refcnt = H.refcnt + 1 ∧
    (HeapArc.clone H selfPtr).2 = selfPtr ∧
    (HeapArc.clone H selfPtr).1.data = H.data ∧
    (HeapArc.clone H selfPtr).1.payloadAlive = H.payloadAlive ∧
    (HeapArc.clone H selfPtr).1.handleActive = H.handleActive ∧
    (HeapArc.clone H selfPtr).1.node = H.node := by
  refine ⟨?_, rfl, rfl, rfl, rfl, rfl⟩
  show usizeAdd1 H.refcnt = H.refcnt + 1
  unfold usizeAdd1
  rw [if_neg (by omega)]

/-- Witness for C7 at a concrete allocation with counter 2. -/
theorem heapArc_clone_spec_witness :
    exArc2.refcnt + 1 < USIZE ∧
    ((HeapArc.clone exArc2 100).1.refcnt = exArc2.refcnt + 1 ∧
     (HeapArc.clone exArc2 100).2 = 100 ∧
     (HeapArc.clone exArc2 100).1.data = exArc2.data ∧
     (HeapArc.clone exArc2 100).1.payloadAlive = exArc2.payloadAlive ∧
     (HeapArc.clone exArc2 100).1.handleActive = exArc2.handleActive ∧
     (HeapArc.clone exArc2 100).1.node = exArc2.node) :=
  ⟨by decide, heapArc_clone_spec exArc2 100 (by decide)⟩

/-! ## C8 -/

/-- C8: The `HeapArray` destructor performs exactly `count` drop events, at
slot indices `0, ..., count - 1`, each slot exactly once, dropping exactly
the stored elements, and afterwards the handle is deactivated; an array of
5 elements runs exactly 5 destructors. -/
theorem heapArray_drop_spec {T : Type} (H : ArrHeap T) :
    (HeapArray.dropArray H).1.length = H.elems.length ∧
    (HeapArray.dropArray H).1.map Prod.fst = List.range H.elems.length ∧
    ((HeapArray.dropArray H).1.map Prod.fst).Nodup ∧
    (HeapArray.dropArray H).1.map Prod.snd = H.elems.map some ∧
    (HeapArray.dropArray H).2 = true := by
  unfold HeapArray.dropArray HeapArray.dropEvent
  refine ⟨by simp, ?_, ?_, ?_, rfl⟩
  · rw [List.map_map]
    simp [Function.comp_def]
  · rw [List.map_map]
    simp only [Function.comp_def]
    simpa using List.nodup_range _
  · rw [List.map_map]
    simp only [Function.comp_def]
    exact map_getElem?_range H.elems

/-! ## C9 -/

/-- C9: Every multi-threaded execution of `clone`/`drop` on the handles of
one shared allocation linearizes (each counter operation is one atomic
sequentially-consistent read-modify-write) to a valid operation sequence;
for every such sequence starting from the freshly constructed state, the
counter always equals the number of live handles, the payload destructor
has run exactly once when no handle remains live and zero times otherwise
(so a completed teardown runs it exactly once), and after any prefix of
the sequence with a handle still live the destructor has not run at all —
it runs only after every clone has been dropped, in the single final
drop. -/
theorem arc_payload_dropped_once (pre suf : List ArcOp)
    (hvalid : validOps 1 (pre ++ suf))
    (hlen : (pre ++ suf).length + 1 < USIZE) :
    ((runOps arcInit (pre ++ suf)).refcnt = (runOps arcInit (pre ++ suf)).live) ∧
    ((runOps arcInit (pre ++ suf)).payloadDrops
       = if (runOps arcInit (pre ++ suf)).live = 0 then 1 else 0) ∧
    (0 < (runOps arcInit pre).live → (runOps arcInit pre).payloadDrops = 0) := by
  rw [List.length_append] at hlen
  have hmain := runOps_refcnt_payload (pre ++ suf) arcInit hvalid rfl (by decide)
    (by show 1 + (pre ++ suf).length < USIZE
        rw [List.length_append]
        omega)
  have hvpre := validOps_append_left pre suf 1 hvalid
  have hpre := runOps_refcnt_payload pre arcInit hvpre rfl (by decide)
    (by show 1 + pre.length < USIZE
        omega)
  refine ⟨hmain.1, ?_, ?_⟩
  · rw [hmain.2]
    show 0 + _ = _
    exact Nat.zero_add _
  · intro hl
    have h3 := hpre.2
    rw [if_neg (by omega)] at h3
    simpa [arcInit] using h3

/-- Witness for C9 on the concrete interleaving
clone, drop, clone, drop, drop (two clones made, all handles dropped). -/
theorem arc_payload_dropped_once_witness :
    validOps 1 ([ArcOp.clone, ArcOp.drop] ++ [ArcOp.clone, ArcOp.drop, ArcOp.drop]) ∧
    ([ArcOp.clone, ArcOp.drop] ++ [ArcOp.clone, ArcOp.drop, ArcOp.drop]).length + 1 < USIZE ∧
    (((runOps arcInit ([ArcOp.clone, ArcOp.drop] ++ [ArcOp.clone, ArcOp.drop, ArcOp.drop])).refcnt
        = (runOps arcInit ([ArcOp.clone, ArcOp.drop] ++ [ArcOp.clone, ArcOp.drop, ArcOp.drop])).live) ∧
     ((runOps arcInit ([ArcOp.clone, ArcOp.drop] ++ [ArcOp.clone, ArcOp.drop, ArcOp.drop])).payloadDrops
        = if (runOps arcInit ([ArcOp.clone, ArcOp.drop] ++ [ArcOp.clone, ArcOp.drop, ArcOp.drop])).live = 0 then 1 else 0) ∧
     (0 < (runOps arcInit [ArcOp.clone, ArcOp.drop]).live →
        (runOps arcInit [ArcOp.clone, ArcOp.drop]).payloadDrops = 0)) :=
  ⟨by decide, by decide,
   arc_payload_dropped_once [ArcOp.clone, ArcOp.drop]
     [ArcOp.clone, ArcOp.drop, ArcOp.drop] (by decide) (by decide)⟩

/-! ## C10 -/

theorem set_take_succ {T : Type} (l : List T) :
    ∀ n, n < l.length → ∀ a : T, (l.set n a).take (n + 1) = l.take n ++ [a] := by
  induction l with
  | nil => intro n hn; exact absurd hn (by simp)
  | cons b t ih =>
      intro n hn a
      cases n with
      | zero => simp
      | succ n =>
          simp only [List.set_cons_succ, List.take_succ_cons, List.cons_append]
          rw [ih n (by simpa using hn) a]

theorem set_take_self {T : Type} (l : List T) :
    ∀ n, ∀ a : T, (l.set n a).take n = l.take n := by
  induction l with
  | nil => intro n a; simp
  | cons b t ih =>
      intro n a
      cases n with
      | zero => simp
      | succ n =>
          simp only [List.set_cons_succ, List.take_succ_cons]
          rw [ih n a]

/-- C10: A successful `push` writes only slot `len`: the initialized prefix
`[0, len)` is unchanged, every slot at an index other than `len` is
unchanged, and the visible contents (`deref`, the initialized prefix)
after the push are the old contents extended by exactly the pushed
value. -/
theorem heapFixedVec_push_frame {T : Type} (s : FixedVec T) (item : T)
    (i : Nat) (hlt : s.len < s.buf.length) (hne : i ≠ s.len) :
    (HeapFixedVec.push s item).1.buf.take s.len = s.buf.take s.len ∧
    (HeapFixedVec.push s item).1.buf[i]? = s.buf[i]? ∧
    HeapFixedVec.deref (HeapFixedVec.push s item).1
      = HeapFixedVec.deref s ++ [some item] := by
  have hcond : ¬ s.buf.length = s.len := by omega
  unfold HeapFixedVec.push HeapFixedVec.deref
  simp only [if_neg hcond]
  refine ⟨?_, ?_, ?_⟩
  · exact set_take_self s.buf s.len (some item)
  · rw [List.getElem?_set_ne (by omega)]
  · exact set_take_succ s.buf s.len hlt (some item)

/-- Witness for C10 on a concrete capacity-3 vector holding 2 elements,
checking slot 0 is untouched. -/
theorem heapFixedVec_push_frame_witness :
    exVec2.len < exVec2.buf.length ∧ (0 : Nat) ≠ exVec2.len ∧
    ((HeapFixedVec.push exVec2 30).1.buf.take exVec2.len = exVec2.buf.take exVec2.len ∧
     (HeapFixedVec.push exVec2 30).1.buf[(0 : Nat)]? = exVec2.buf[(0 : Nat)]? ∧
     HeapFixedVec.deref (HeapFixedVec.push exVec2 30).1
       = HeapFixedVec.deref exVec2 ++ [some 30]) :=
  ⟨by decide, by decide, heapFixedVec_push_frame exVec2 30 0 (by decide) (by decide)⟩
